import Mathlib

/-!
Shallow embedding of the OKX perpetual-futures trading client of this
repository (`trader` package: symbol codec, request signing, transport retry
loop, instrument precision engine, TTL-cached balance / positions readers,
and order-cancellation orchestration), with proofs settling the
specification claims about it.

Modelling conventions: Go strings are `List Char` (one `Char` per byte — all
inputs the claims touch are ASCII), Go `float64` arithmetic is exact rational
arithmetic over `ℚ`, fallible operations return `Except`, and every network
interaction is driven by an explicit oracle value describing what the
exchange returned, so all definitions stay executable and theorems can be
evaluated on concrete inputs.
-/

deriving instance DecidableEq for Except

namespace OKX

/-! ## Go string helpers -/

/-- Go `strings.TrimSuffix(s, suf)`: drop `suf` from the end of `s` when it
is a suffix of `s`, otherwise return `s` unchanged. -/
def trimSuffix (s suf : List Char) : List Char :=
  if suf <:+ s then s.take (s.length - suf.length) else s

/-- Go `strings.Contains(s, sub)`. -/
def goContains (s sub : List Char) : Bool :=
  decide (sub <:+: s)

/-- Go `strings.ReplaceAll(s, "-", "")`: removing every dash is a filter. -/
def removeDashes (s : List Char) : List Char :=
  s.filter (fun c => c ≠ '-')

/-! ## Symbol codec (`convertSymbol` / `reverseSymbol`) -/

/-- `convertSymbol`: translate a caller-format symbol such as `BTCUSDT` to
the exchange-native instrument ID such as `BTC-USDT-SWAP`.  A symbol already
containing a dash is returned unchanged; otherwise a trailing `USDT`
(preferred) or `USD` is stripped and the matching `-USDT-SWAP` / `-USD-SWAP`
suffix appended; with neither suffix, `-USDT-SWAP` is appended by default. -/
def convertSymbol (symbol : List Char) : List Char :=
  if goContains symbol "-".toList then symbol
  else if trimSuffix symbol "USDT".toList = symbol then
    (if trimSuffix symbol "USD".toList = symbol then symbol ++ "-USDT-SWAP".toList
     else trimSuffix symbol "USD".toList ++ "-USD-SWAP".toList)
  else trimSuffix symbol "USDT".toList ++ "-USDT-SWAP".toList

/-- `reverseSymbol`: translate an exchange-native instrument ID back to the
caller format by stripping a trailing `-SWAP` and removing every dash. -/
def reverseSymbol (okxSymbol : List Char) : List Char :=
  removeDashes (trimSuffix okxSymbol "-SWAP".toList)

/-! ## Transport errors and the request / retry loop (`makeRequest`) -/

/-- The error values the client surfaces.  Each constructor corresponds to
one `fmt.Errorf` format string in the source; the original code and message
text are carried as fields. -/
inductive GoError where
  /-- Transport failure: wraps the `http.Client.Do` error text. -/
  | httpReqFailed (msg : List Char)
  /-- Envelope or HTTP-error-body failure carrying the exchange fields. -/
  | okxAPIError (code msg : List Char)
  /-- Non-200 status whose body did not parse into the error shape. -/
  | httpError (status : Nat) (raw : List Char)
  /-- Envelope JSON decode failure on a 200 response. -/
  | parseRespFailed
  /-- Retry-exhaustion wrapper written after the retry loop.  The loop
  returns on every path, so this constructor is unreachable from
  `makeRequest` — it exists to state claims about that message. -/
  | retriesExhausted (n : Nat) (inner : GoError)
  /-- Wrapper added by `GetBalance` around a failed fetch. -/
  | getBalanceFailed (inner : GoError)
  /-- Balance payload JSON decode failure. -/
  | parseBalanceFailed
  /-- Balance payload carried no account or no detail entry. -/
  | noBalanceInfo
  /-- Wrapper added by `GetPositions` around a failed fetch. -/
  | getPositionsFailed (inner : GoError)
  /-- Positions payload JSON decode failure. -/
  | parsePositionsFailed
  /-- Wrapper added by `CancelAllOrders` when listing pending orders fails. -/
  | getOrderListFailed (inner : GoError)
  /-- Pending-order list JSON decode failure inside `CancelAllOrders`. -/
  | parseOrderListFailed
  /-- Quantity rejection at the top of `FormatQuantity`. -/
  | qtyMustBePositive
  /-- Model artifact: the oracle listed fewer attempts than the retry loop
  consumed.  Theorems always supply enough attempts. -/
  | outOfAttempts
deriving DecidableEq

/-- What a single HTTP attempt inside `makeRequest` observed, as reported by
the oracle.  `transportErr` is a failed `http.Client.Do` with the given
error text.  `response` carries the status, the result of unmarshalling the
body into the error shape (used when the status is not 200), the result of
unmarshalling it into the envelope shape with already-decoded `data` (used
on 200), and the raw body text. -/
inductive AttemptResult (α : Type) where
  | transportErr (msg : List Char)
  | response (status : Nat) (errParse : Option (List Char × List Char))
      (envParse : Option (List Char × List Char × α)) (raw : List Char)
deriving DecidableEq

/-- Maximum number of attempts of the retry loop. -/
def maxRetries : Nat := 3

/-- Whether a transport error is retryable: its text contains `timeout`,
`connection reset`, or `EOF`. -/
def retryableErr (msg : List Char) : Bool :=
  goContains msg "timeout".toList || goContains msg "connection reset".toList
    || goContains msg "EOF".toList

/-- The body of `makeRequest`'s `for attempt := 1; ...` loop.  Returns the
result, the list of back-off sleeps performed (in seconds), and the number
of HTTP round trips issued.  A retryable transport error before the last
attempt sleeps `attempt` seconds and retries; every other outcome returns
immediately, so the post-loop retry-exhaustion return is dead code. -/
def makeRequestLoop {α : Type} :
    List (AttemptResult α) → Nat → Except GoError α × List Nat × Nat
  | [], _ => (.error .outOfAttempts, [], 0)
  | .transportErr msg :: rest, attempt =>
    if attempt < maxRetries ∧ retryableErr msg = true then
      let r := makeRequestLoop rest (attempt + 1)
      (r.1, attempt :: r.2.1, r.2.2 + 1)
    else (.error (.httpReqFailed msg), [], 1)
  | .response status errParse envParse raw :: _, _ =>
    if status ≠ 200 then
      match errParse with
      | some (code, msg) => (.error (.okxAPIError code msg), [], 1)
      | none => (.error (.httpError status raw), [], 1)
    else
      match envParse with
      | none => (.error .parseRespFailed, [], 1)
      | some (code, msg, data) =>
        if code = "0".toList then (.ok data, [], 1)
        else (.error (.okxAPIError code msg), [], 1)

/-- `makeRequest`, driven by the oracle list of per-attempt outcomes.
Returns `(result, sleeps, round trips)`. -/
def makeRequest {α : Type} (attempts : List (AttemptResult α)) :
    Except GoError α × List Nat × Nat :=
  makeRequestLoop attempts 1

/-! ## Signing: SHA-256, HMAC, base64 (`generateSignature`) -/

/-- Bytes of an ASCII Go string (`[]byte(s)`), one byte per character. -/
def bytesOfChars (s : List Char) : List Nat :=
  s.map Char.toNat

/-- Truncation to a 32-bit word. -/
def w32 (n : Nat) : Nat := n % 2 ^ 32

/-- 32-bit rotate right by `n`. -/
def rotr (n x : Nat) : Nat :=
  w32 ((x >>> n) ||| (x <<< (32 - n)))

/-- Big-endian byte rendering of `v` in exactly `n` bytes. -/
def beBytes (n : Nat) (v : Nat) : List Nat :=
  (List.range n).map (fun i => v / 2 ^ (8 * (n - 1 - i)) % 256)

/-- SHA-256 message padding: append `0x80`, then zero bytes up to 56 mod
64, then the 64-bit big-endian bit length. -/
def shaPad (msg : List Nat) : List Nat :=
  msg ++ 0x80 :: List.replicate ((119 - msg.length % 64) % 64) 0
    ++ beBytes 8 (8 * msg.length)

/-- Group bytes into big-endian 32-bit words. -/
def beWords : List Nat → List Nat
  | a :: b :: c :: d :: rest => (((a * 256 + b) * 256 + c) * 256 + d) :: beWords rest
  | _ => []

/-- Split a word list into 16-word blocks. -/
def blocks16 (ws : List Nat) : List (List Nat) :=
  (List.range (ws.length / 16)).map (fun i => (ws.drop (16 * i)).take 16)

/-- SHA-256 round constants (FIPS 180-4), written in decimal. -/
def shaK : List Nat :=
  [1116352408, 1899447441, 3049323471, 3921009573, 961987163,
   1508970993, 2453635748, 2870763221, 3624381080, 310598401,
   607225278, 1426881987, 1925078388, 2162078206, 2614888103,
   3248222580, 3835390401, 4022224774, 264347078, 604807628,
   770255983, 1249150122, 1555081692, 1996064986, 2554220882,
   2821834349, 2952996808, 3210313671, 3336571891, 3584528711,
   113926993, 338241895, 666307205, 773529912, 1294757372,
   1396182291, 1695183700, 1986661051, 2177026350, 2456956037,
   2730485921, 2820302411, 3259730800, 3345764771, 3516065817,
   3600352804, 4094571909, 275423344, 430227734, 506948616,
   659060556, 883997877, 958139571, 1322822218, 1537002063,
   1747873779, 1955562222, 2024104815, 2227730452, 2361852424,
   2428436474, 2756734187, 3204031479, 3329325298]

/-- SHA-256 initial hash state (FIPS 180-4), written in decimal. -/
def shaH0 : List Nat :=
  [1779033703, 3144134277, 1013904242, 2773480762,
   1359893119, 2600822924, 528734635, 1541459225]

/-- The lower-case sigma-0 function of the message schedule. -/
def smallSigma0 (x : Nat) : Nat := (rotr 7 x) ^^^ (rotr 18 x) ^^^ (x >>> 3)

/-- The lower-case sigma-1 function of the message schedule. -/
def smallSigma1 (x : Nat) : Nat := (rotr 17 x) ^^^ (rotr 19 x) ^^^ (x >>> 10)

/-- The upper-case sigma-0 function of the compression rounds. -/
def bigSigma0 (x : Nat) : Nat := (rotr 2 x) ^^^ (rotr 13 x) ^^^ (rotr 22 x)

/-- The upper-case sigma-1 function of the compression rounds. -/
def bigSigma1 (x : Nat) : Nat := (rotr 6 x) ^^^ (rotr 11 x) ^^^ (rotr 25 x)

/-- Extend a 16-word block to the 64-word message schedule. -/
def schedule (ws : List Nat) : List Nat :=
  (List.range 48).foldl
    (fun w _ =>
      let n := w.length
      w ++ [w32 (w.getD (n - 16) 0 + smallSigma0 (w.getD (n - 15) 0)
        + w.getD (n - 7) 0 + smallSigma1 (w.getD (n - 2) 0))])
    ws

/-- One SHA-256 compression round on the state `[a, b, c, d, e, f, g, h]`. -/
def shaRound (st : List Nat) (ki wi : Nat) : List Nat :=
  match st with
  | [a, b, c, d, e, f, g, h] =>
    let ch := (e &&& f) ^^^ ((e ^^^ (2 ^ 32 - 1)) &&& g)
    let t1 := w32 (h + bigSigma1 e + ch + ki + wi)
    let maj := (a &&& b) ^^^ (a &&& c) ^^^ (b &&& c)
    let t2 := w32 (bigSigma0 a + maj)
    [w32 (t1 + t2), a, b, c, w32 (d + t1), e, f, g]
  | other => other

/-- Compress one 64-word schedule into the hash state. -/
def shaCompress (h : List Nat) (ws : List Nat) : List Nat :=
  let final := (List.zip shaK ws).foldl (fun st kw => shaRound st kw.1 kw.2) h
  (List.zip h final).map (fun p => w32 (p.1 + p.2))

/-- SHA-256 of a byte list, as its 32 digest bytes. -/
def sha256 (msg : List Nat) : List Nat :=
  let hw := (blocks16 (beWords (shaPad msg))).foldl
    (fun h b => shaCompress h (schedule b)) shaH0
  hw.foldr (fun w acc => beBytes 4 w ++ acc) []

/-- HMAC-SHA256 with a 64-byte block size. -/
def hmacSha256 (key msg : List Nat) : List Nat :=
  let k1 := if 64 < key.length then sha256 key else key
  let k2 := k1 ++ List.replicate (64 - k1.length) 0
  let ipadded := k2.map (fun b => b ^^^ 0x36)
  let opadded := k2.map (fun b => b ^^^ 0x5c)
  sha256 (opadded ++ sha256 (ipadded ++ msg))

/-- The standard base64 alphabet. -/
def b64Alphabet : List Char :=
  "ABCDEFGHIJKLMNOPQRSTUVWXYZabcdefghijklmnopqrstuvwxyz0123456789+/".toList

/-- Character for one 6-bit group. -/
def b64Char (n : Nat) : Char := b64Alphabet.getD n '='

/-- Standard base64 encoding with padding, as
`encoding/base64.StdEncoding.EncodeToString` produces. -/
def base64Encode : List Nat → List Char
  | [] => []
  | [a] => [b64Char (a / 4), b64Char (a % 4 * 16), '=', '=']
  | [a, b] => [b64Char (a / 4), b64Char (a % 4 * 16 + b / 16), b64Char (b % 16 * 4), '=']
  | a :: b :: c :: rest =>
    b64Char (a / 4) :: b64Char (a % 4 * 16 + b / 16) :: b64Char (b % 16 * 4 + c / 64)
      :: b64Char (c % 64) :: base64Encode rest

/-- `generateSignature(timestamp, method, requestPath, body)`: concatenate
`timestamp + method + requestPath + body`, take the HMAC-SHA256 tag of the
concatenation under the trader's secret key, and base64-encode the tag. -/
def generateSignature (secretKey timestamp method requestPath body : List Char) : List Char :=
  let message := timestamp ++ method ++ requestPath ++ body
  base64Encode (hmacSha256 (bytesOfChars secretKey) (bytesOfChars message))

/-! ## Decimal rendering and parsing -/

/-- Decimal digits of a natural number, most significant first (`0` stays
one zero digit), as Go renders integers. -/
def renderNat (n : Nat) : List Char :=
  if n = 0 then ['0'] else ((Nat.digits 10 n).map Nat.digitChar).reverse

/-- Value of a most-significant-first digit string. -/
def natOfDigits (s : List Char) : Nat :=
  s.foldl (fun a c => 10 * a + (c.toNat - 48)) 0

/-- Go `strings.TrimRight(s, cutset)` for a single-character cutset. -/
def trimRight (s : List Char) (c : Char) : List Char :=
  (s.reverse.dropWhile (fun a => a = c)).reverse

/-- Round a rational to the nearest integer, ties to even — the rounding
`strconv.FormatFloat` and `fmt.Sprintf` apply to the value rendered. -/
def rdHalfEven (x : ℚ) : ℤ :=
  if Int.fract x < 1 / 2 then ⌊x⌋
  else if 1 / 2 < Int.fract x then ⌊x⌋ + 1
  else if ⌊x⌋ % 2 = 0 then ⌊x⌋ else ⌊x⌋ + 1

/-- Left-pad a digit string with zeros to exactly `n` characters. -/
def padZeros (n : Nat) (s : List Char) : List Char :=
  List.replicate (n - s.length) '0' ++ s

/-- Decimal rendering of a non-negative rational with exactly `dp` digits
after the point — Go `strconv.FormatFloat(x, 'f', dp, 64)` and
`fmt.Sprintf` with a fixed precision.  With `dp = 0` there is no point and
no fractional part. -/
def renderFixed (x : ℚ) (dp : Nat) : List Char :=
  let m := (rdHalfEven (x * 10 ^ dp)).toNat
  if dp = 0 then renderNat m
  else renderNat (m / 10 ^ dp) ++ '.' :: padZeros dp (renderNat (m % 10 ^ dp))

/-- The rational a non-negative decimal string (with at most one point)
denotes: the integer part plus the fractional digits scaled by their count.
This is the denotation of the strings the formatters return. -/
def parseDecimal (s : List Char) : ℚ :=
  let ip := s.takeWhile (fun c => c ≠ '.')
  let fp := (s.dropWhile (fun c => c ≠ '.')).drop 1
  (natOfDigits ip : ℚ) + (natOfDigits fp : ℚ) / 10 ^ fp.length

/-! ## Precision engine (`getPrecision`, `FormatQuantity`, `formatPrice`) -/

/-- Symbol precision record cached by `getPrecision`. -/
structure OKXSymbolPrecision where
  pricePrecision : Nat
  quantityPrecision : Nat
  tickSize : ℚ
  stepSize : ℚ
  minSize : ℚ
deriving DecidableEq

/-- Decimal-place count computed by `getPrecision`: the length of the whole
string obtained by rendering the step with ten decimals and trimming
trailing zeros then trailing dots — the source measures the full trimmed
string, not only its fractional digits. -/
def precisionDigits (step : ℚ) : Nat :=
  (trimRight (trimRight (renderFixed step 10) '0') '.').length

/-- The computation `getPrecision` performs once the instrument strings are
parsed to numbers. -/
def computePrecision (lotSz tickSz minSz : ℚ) : OKXSymbolPrecision :=
  { pricePrecision := if 0 < tickSz then precisionDigits tickSz else 0
    quantityPrecision := if 0 < lotSz then precisionDigits lotSz else 0
    tickSize := tickSz
    stepSize := lotSz
    minSize := minSz }

/-- The two instrument fields `FormatQuantity` parses (`minSz`, `lotSz`),
already taken through `strconv.ParseFloat` (whose error is ignored, so an
unparsable field reads as 0). -/
structure InstrumentInfo where
  minSz : ℚ
  lotSz : ℚ
deriving DecidableEq

/-- Go `math.Round`: round half away from zero. -/
def goRound (x : ℚ) : ℤ :=
  if 0 ≤ x then ⌊x + 1 / 2⌋ else -(⌊-x + 1 / 2⌋)

/-- `FormatQuantity(symbol, quantity)` with the instrument fetch outcome as
an oracle (`none` is a failed fetch).  Rejects a non-positive quantity; on
fetch failure falls back to rounding at 2 decimals (BTC/ETH symbols) or 3
decimals; otherwise clamps up to `minSz` (defaulted to 1 when non-positive),
floors to a `lotSz` multiple with a snap back to `minSz`, and renders
`math.Floor(quantity)` with no decimals.  The returned rational is exactly
the value the returned string denotes: `strconv.FormatFloat(x, 'f', 0, 64)`
of the non-negative integer `⌊q⌋` denotes `⌊q⌋`, and the fallback renders
with 2 resp. 3 decimals, denoting the exact rounded rational. -/
def formatQuantity (symbol : List Char) (info : Option InstrumentInfo) (quantity : ℚ) :
    Except GoError ℚ :=
  if quantity ≤ 0 then .error .qtyMustBePositive
  else
    match info with
    | none =>
      if goContains symbol "BTC".toList || goContains symbol "ETH".toList then
        .ok ((goRound (quantity * 100) : ℚ) / 100)
      else .ok ((goRound (quantity * 1000) : ℚ) / 1000)
    | some i =>
      let minSz := if i.minSz ≤ 0 then 1 else i.minSz
      let q1 := if quantity < minSz then minSz else quantity
      let q2 :=
        if 0 < i.lotSz then
          (if (⌊q1 / i.lotSz⌋ : ℚ) * i.lotSz < minSz then minSz
           else (⌊q1 / i.lotSz⌋ : ℚ) * i.lotSz)
        else q1
      .ok (⌊q2⌋ : ℚ)

/-- `formatPrice(symbol, price)` given the computed precision: floor to a
tick multiple when `tickSize > 0`, otherwise floor at `pricePrecision`
decimals; then render with `pricePrecision` decimals and trim trailing
zeros and trailing dots.  Returns the exact string. -/
def formatPrice (prec : OKXSymbolPrecision) (price : ℚ) : List Char :=
  let formatted :=
    if 0 < prec.tickSize then (⌊price / prec.tickSize⌋ : ℚ) * prec.tickSize
    else (⌊price * 10 ^ prec.pricePrecision⌋ : ℚ) / 10 ^ prec.pricePrecision
  trimRight (trimRight (renderFixed formatted prec.pricePrecision) '0') '.'

/-! ## Position normalization (the `GetPositions` loop) -/

/-- Raw exchange position record after its numeric strings are parsed
(`strconv.ParseFloat` with errors ignored: an unparsable field reads 0). -/
structure RawPos where
  instId : List Char
  pos : ℚ
  avgPx : ℚ
  markPx : ℚ
  upl : ℚ
  lever : ℚ
  margin : ℚ
  notionalUsd : ℚ
  liqPx : ℚ
  mgnMode : List Char
deriving DecidableEq

/-- Normalized position map produced by `GetPositions`, one field per key. -/
structure NormPos where
  symbol : List Char
  positionAmt : ℚ
  entryPrice : ℚ
  markPrice : ℚ
  unRealizedProfit : ℚ
  unrealizedPnl : ℚ
  leverage : ℚ
  margin : ℚ
  notional : ℚ
  liquidationPrice : ℚ
  side : List Char
  positionSide : List Char
  marginMode : List Char
  marginType : List Char
deriving DecidableEq

/-- Loop body of `GetPositions` for one raw record with `pos ≠ 0`. -/
def normalizeOne (p : RawPos) : NormPos :=
  { symbol := reverseSymbol p.instId
    positionAmt := if p.pos < 0 then -p.pos else p.pos
    entryPrice := p.avgPx
    markPrice := p.markPx
    unRealizedProfit := p.upl
    unrealizedPnl := p.upl
    leverage := p.lever
    margin := p.margin
    notional := p.notionalUsd
    liquidationPrice := p.liqPx
    side := if p.pos < 0 then "short".toList else "long".toList
    positionSide := if p.pos < 0 then "short".toList else "long".toList
    marginMode := p.mgnMode
    marginType := p.mgnMode }

/-- A Go slice: `none` is the nil slice — what `var result []T` declares and
what a loop that never appends leaves behind — and `some l` a non-nil
slice. -/
abbrev GoSlice (α : Type) := Option (List α)

/-- The elements of a Go slice (a nil slice has none). -/
def goSliceToList {α : Type} (s : GoSlice α) : List α := s.getD []

/-- Go `append`: appending to a nil slice allocates a fresh one. -/
def goAppend {α : Type} (s : GoSlice α) (x : α) : GoSlice α :=
  some (goSliceToList s ++ [x])

/-- The `for _, pos := range positions` loop of `GetPositions`: skip records
whose `pos` parses to 0, append the normalized record otherwise.  Starts
from the nil slice, so an empty or all-zero input leaves the result nil. -/
def buildPositions (raws : List RawPos) : GoSlice NormPos :=
  raws.foldl (fun acc p => if p.pos = 0 then acc else goAppend acc (normalizeOne p)) none

/-! ## TTL caches: `GetBalance` and `GetPositions` -/

/-- The cache TTL, 15 seconds. -/
def cacheDuration : ℚ := 15

/-- Parsed fields of the first balance detail plus the account `totalEq`. -/
structure BalanceDetail where
  totalEq : ℚ
  availEq : ℚ
  eq : ℚ
  bal : ℚ
  availBal : ℚ
  upl : ℚ
deriving DecidableEq

/-- Normalized balance map returned by `GetBalance`, one field per key. -/
structure BalanceResult where
  totalWalletBalance : ℚ
  availableBalance : ℚ
  totalUnrealizedProfit : ℚ
  total_balance : ℚ
  available_balance : ℚ
  balance : ℚ
  available_balance_ccy : ℚ
  equity : ℚ
  total_equity : ℚ
deriving DecidableEq

/-- Build the `GetBalance` result map from a decoded payload. -/
def mkBalanceResult (d : BalanceDetail) : BalanceResult :=
  { totalWalletBalance := d.totalEq - d.upl
    availableBalance := d.availEq
    totalUnrealizedProfit := d.upl
    total_balance := d.totalEq
    available_balance := d.availEq
    balance := d.bal
    available_balance_ccy := d.availBal
    equity := d.eq
    total_equity := d.totalEq }

/-- Decoded balance payload carried in the envelope `data`: `none` is a
JSON decode failure, `some none` an empty account or detail list,
`some (some d)` the first detail. -/
abbrev BalPayload := Option (Option BalanceDetail)

/-- Decoded positions payload: `none` is a JSON decode failure. -/
abbrev PosPayload := Option (List RawPos)

/-- The trader's cache fields. -/
structure TraderState where
  cachedBalance : Option BalanceResult
  balanceCacheTime : ℚ
  cachedPositions : GoSlice NormPos
  positionsCacheTime : ℚ
deriving DecidableEq

/-- The fetch-and-store tail of `GetBalance` (runs on a cache miss): fetch
via `makeRequest`, surface transport / envelope / decode / empty-payload
failures with the cache untouched, and on success store the result and the
fetch time. -/
def getBalanceFetch (st : TraderState) (now : ℚ)
    (attempts : List (AttemptResult BalPayload)) :
    Except GoError BalanceResult × TraderState × Nat :=
  let r := makeRequest attempts
  match r.1 with
  | .error e => (.error (.getBalanceFailed e), st, r.2.2)
  | .ok none => (.error .parseBalanceFailed, st, r.2.2)
  | .ok (some none) => (.error .noBalanceInfo, st, r.2.2)
  | .ok (some (some d)) =>
    let result := mkBalanceResult d
    (.ok result, { st with cachedBalance := some result, balanceCacheTime := now }, r.2.2)

/-- `GetBalance` at time `now`: serve the cache when it is non-nil and
younger than the TTL, otherwise fetch.  Returns the result, the new state,
and the number of HTTP round trips issued. -/
def getBalance (st : TraderState) (now : ℚ)
    (attempts : List (AttemptResult BalPayload)) :
    Except GoError BalanceResult × TraderState × Nat :=
  match st.cachedBalance with
  | some b =>
    if now - st.balanceCacheTime < cacheDuration then (.ok b, st, 0)
    else getBalanceFetch st now attempts
  | none => getBalanceFetch st now attempts

/-- The fetch-and-store tail of `GetPositions` (runs on a cache miss).  The
result slice is built by `buildPositions` and stored as-is — in particular
the nil slice when the exchange reported no open positions. -/
def getPositionsFetch (st : TraderState) (now : ℚ)
    (attempts : List (AttemptResult PosPayload)) :
    Except GoError (GoSlice NormPos) × TraderState × Nat :=
  let r := makeRequest attempts
  match r.1 with
  | .error e => (.error (.getPositionsFailed e), st, r.2.2)
  | .ok none => (.error .parsePositionsFailed, st, r.2.2)
  | .ok (some raws) =>
    let result := buildPositions raws
    (.ok result, { st with cachedPositions := result, positionsCacheTime := now }, r.2.2)

/-- `GetPositions` at time `now`: serve the cache when the stored slice is
non-nil and younger than the TTL, otherwise fetch.  Returns the result
slice, the new state, and the number of HTTP round trips issued. -/
def getPositions (st : TraderState) (now : ℚ)
    (attempts : List (AttemptResult PosPayload)) :
    Except GoError (GoSlice NormPos) × TraderState × Nat :=
  match st.cachedPositions with
  | some ps =>
    if now - st.positionsCacheTime < cacheDuration then (.ok (some ps), st, 0)
    else getPositionsFetch st now attempts
  | none => getPositionsFetch st now attempts

/-! ## `CancelAllOrders` -/

/-- `CancelAllOrders(symbol)` with oracles for its sub-calls: `batch` is the
`trade/cancel-all-after` result; on its failure `pending` is the
pending-order listing (`.error e` a failed request, `.ok none` a decode
failure, `.ok (some ids)` the parsed order IDs) and `eachCancel` the
per-order `trade/cancel-order` results, whose failures are logged and
skipped; `slCancel` and `tpCancel` are the two algo-cancellation results,
also only logged.  Returns the aggregate result together with the list of
logged (not surfaced) sub-errors. -/
def cancelAllOrders (batch : Except GoError Unit)
    (pending : Except GoError (Option (List (List Char))))
    (eachCancel : List (Except GoError Unit))
    (slCancel tpCancel : Except GoError Unit) :
    Except GoError Unit × List GoError :=
  let phase1 : Except GoError (List GoError) :=
    match batch with
    | .ok _ => .ok []
    | .error _ =>
      match pending with
      | .error e => .error (.getOrderListFailed e)
      | .ok none => .error .parseOrderListFailed
      | .ok (some _ids) =>
        .ok (eachCancel.foldr
          (fun r acc => match r with | .error e => e :: acc | .ok _ => acc) [])
  match phase1 with
  | .error e => (.error e, [])
  | .ok l1 =>
    let l2 := match slCancel with | .error e => [e] | .ok _ => []
    let l3 := match tpCancel with | .error e => [e] | .ok _ => []
    (.ok (), l1 ++ l2 ++ l3)

/-! ## Failure-shape predicates used by the cache claims -/

/-- Whether an `Except` value is the error case. -/
def exceptIsError {ε α : Type} : Except ε α → Bool
  | .error _ => true
  | .ok _ => false

/-- Whether a balance fetch fails in one of the surfaced ways: transport
error, non-200 status, envelope code not 0, payload decode failure, or
empty account / detail list. -/
def balFetchFails (attempts : List (AttemptResult BalPayload)) : Bool :=
  match (makeRequest attempts).1 with
  | .error _ => true
  | .ok none => true
  | .ok (some none) => true
  | .ok (some (some _)) => false

/-- Whether a positions fetch fails in one of the surfaced ways: transport
error, non-200 status, envelope code not 0, or payload decode failure (an
empty positions list is not a failure). -/
def posFetchFails (attempts : List (AttemptResult PosPayload)) : Bool :=
  match (makeRequest attempts).1 with
  | .error _ => true
  | .ok none => true
  | .ok (some _) => false

end OKX

namespace OKX

/-! ## Helper lemmas -/

theorem trimSuffix_append (t suf : List Char) : trimSuffix (t ++ suf) suf = t := by
  have hsuf : suf <:+ t ++ suf := List.suffix_append t suf
  have hlen : (t ++ suf).length - suf.length = t.length := by
    simp [List.length_append]
  simp only [trimSuffix, if_pos hsuf, hlen, List.take_left]

theorem trimSuffix_of_not_suffix {s suf : List Char} (h : ¬ suf <:+ s) :
    trimSuffix s suf = s := by
  simp [trimSuffix, h]

theorem goContains_dash_false {s : List Char} (h : ¬ ('-' ∈ s)) :
    goContains s "-".toList = false := by
  rw [goContains, decide_eq_false_iff_not]
  intro hinf
  have hsub : List.Sublist "-".toList s := hinf.sublist
  have hm : '-' ∈ s := (List.singleton_sublist).mp hsub
  exact h hm

theorem removeDashes_of_no_dash {t : List Char} (h : ¬ ('-' ∈ t)) :
    removeDashes t = t := by
  rw [removeDashes]
  apply List.filter_eq_self.mpr
  intro a ha
  simp only [ne_eq, decide_eq_true_eq]
  intro hEq
  exact h (hEq ▸ ha)

theorem removeDashes_append (s t : List Char) :
    removeDashes (s ++ t) = removeDashes s ++ removeDashes t := by
  simp [removeDashes, List.filter_append]

theorem reverseSymbol_convertSymbol (s : List Char) (hd : ¬ ('-' ∈ s))
    (hsuf : "USDT".toList <:+ s ∨ "USD".toList <:+ s) :
    reverseSymbol (convertSymbol s) = s := by
  have hc : goContains s "-".toList = false := goContains_dash_false hd
  by_cases husdt : "USDT".toList <:+ s
  · obtain ⟨t, ht⟩ := husdt
    have hdt : ¬ ('-' ∈ t) := by
      intro hm; exact hd (ht ▸ List.mem_append_left _ hm)
    have hbase : trimSuffix s "USDT".toList = t := by
      rw [← ht]; exact trimSuffix_append t _
    have hne : trimSuffix s "USDT".toList ≠ s := by
      rw [hbase, ← ht]
      intro hEq
      have hlen := congrArg List.length hEq
      simp [List.length_append] at hlen
    have hts : t ≠ s := hbase ▸ hne
    have hconv : convertSymbol s = t ++ "-USDT-SWAP".toList := by
      simp only [convertSymbol, hc, Bool.false_eq_true, if_false, hbase]
      rw [if_neg hts]
    have hsplit : ("-USDT-SWAP".toList : List Char) = "-USDT".toList ++ "-SWAP".toList := by
      decide
    rw [hconv, reverseSymbol, hsplit, ← List.append_assoc, trimSuffix_append,
      removeDashes_append, removeDashes_of_no_dash hdt]
    have hrd : removeDashes "-USDT".toList = "USDT".toList := by decide
    rw [hrd, ht]
  · have husd : "USD".toList <:+ s := hsuf.resolve_left husdt
    obtain ⟨t, ht⟩ := husd
    have hdt : ¬ ('-' ∈ t) := by
      intro hm; exact hd (ht ▸ List.mem_append_left _ hm)
    have hbase1 : trimSuffix s "USDT".toList = s := trimSuffix_of_not_suffix husdt
    have hbase2 : trimSuffix s "USD".toList = t := by
      rw [← ht]; exact trimSuffix_append t _
    have hne : trimSuffix s "USD".toList ≠ s := by
      rw [hbase2, ← ht]
      intro hEq
      have hlen := congrArg List.length hEq
      simp [List.length_append] at hlen
    have hts : t ≠ s := hbase2 ▸ hne
    have hconv : convertSymbol s = t ++ "-USD-SWAP".toList := by
      simp only [convertSymbol, hc, Bool.false_eq_true, if_false, if_pos hbase1, hbase2]
      rw [if_neg hts]
    have hsplit : ("-USD-SWAP".toList : List Char) = "-USD".toList ++ "-SWAP".toList := by
      decide
    rw [hconv, reverseSymbol, hsplit, ← List.append_assoc, trimSuffix_append,
      removeDashes_append, removeDashes_of_no_dash hdt]
    have hrd : removeDashes "-USD".toList = "USD".toList := by decide
    rw [hrd, ht]

theorem buildPositions_loop (raws : List RawPos) (acc : GoSlice NormPos) :
    goSliceToList (raws.foldl
        (fun a p => if p.pos = 0 then a else goAppend a (normalizeOne p)) acc)
      = goSliceToList acc ++ (raws.filter (fun p => p.pos ≠ 0)).map normalizeOne := by
  induction raws generalizing acc with
  | nil => simp
  | cons p ps ih =>
    by_cases hp : p.pos = 0
    · simp [List.foldl_cons, hp, ih]
    · simp only [List.foldl_cons, if_neg hp, ih, List.filter_cons]
      simp [hp, goSliceToList, goAppend]

theorem buildPositions_toList (raws : List RawPos) :
    goSliceToList (buildPositions raws)
      = (raws.filter (fun p => p.pos ≠ 0)).map normalizeOne := by
  have h := buildPositions_loop raws none
  simpa [goSliceToList] using h

/-! ## Digit-string lemmas for the price formatter -/

theorem renderNat_ne_nil (n : Nat) : renderNat n ≠ [] := by
  rw [renderNat]
  split
  · simp
  · intro h
    rw [List.reverse_eq_nil_iff, List.map_eq_nil_iff] at h
    next hn => exact hn (Nat.digits_eq_nil_iff_eq_zero.mp h)

theorem digitChar_no_dot {d : Nat} (hd : d < 10) : Nat.digitChar d ≠ '.' := by
  interval_cases d <;> decide

theorem digitChar_val {d : Nat} (hd : d < 10) : (Nat.digitChar d).toNat - 48 = d := by
  interval_cases d <;> decide

theorem renderNat_no_dot (n : Nat) : '.' ∉ renderNat n := by
  rw [renderNat]
  split
  · decide
  · intro hmem
    rw [List.mem_reverse, List.mem_map] at hmem
    obtain ⟨d, hd, hdc⟩ := hmem
    exact digitChar_no_dot (Nat.digits_lt_base (by norm_num) hd) hdc

theorem foldl_digits_shift (s : List Char) (a : Nat) :
    s.foldl (fun a c => 10 * a + (c.toNat - 48)) a
      = a * 10 ^ s.length
        + s.foldl (fun a c => 10 * a + (c.toNat - 48)) 0 := by
  induction s generalizing a with
  | nil => simp
  | cons c t ih =>
    rw [List.foldl_cons, List.foldl_cons, ih, ih (10 * 0 + (c.toNat - 48))]
    rw [List.length_cons, pow_succ]
    ring

theorem natOfDigits_foldl (s : List Char) (a : Nat) :
    s.foldl (fun a c => 10 * a + (c.toNat - 48)) a
      = a * 10 ^ s.length + natOfDigits s :=
  foldl_digits_shift s a

theorem natOfDigits_append (s t : List Char) :
    natOfDigits (s ++ t) = natOfDigits s * 10 ^ t.length + natOfDigits t := by
  rw [natOfDigits, List.foldl_append, ← natOfDigits, natOfDigits_foldl]

theorem natOfDigits_replicate_zero (z : Nat) :
    natOfDigits (List.replicate z '0') = 0 := by
  induction z with
  | zero => rfl
  | succ k ih =>
    rw [List.replicate_succ, natOfDigits, List.foldl_cons]
    show List.foldl _ (10 * 0 + ('0'.toNat - 48)) _ = 0
    rw [natOfDigits_foldl]
    simpa using ih

theorem natOfDigits_padZeros (k : Nat) (s : List Char) :
    natOfDigits (padZeros k s) = natOfDigits s := by
  rw [padZeros, natOfDigits_append, natOfDigits_replicate_zero]
  simp

theorem length_padZeros {k : Nat} {s : List Char} (h : s.length ≤ k) :
    (padZeros k s).length = k := by
  rw [padZeros, List.length_append, List.length_replicate]
  omega

theorem natOfDigits_renderNat (n : Nat) : natOfDigits (renderNat n) = n := by
  rw [renderNat]
  split
  · next h => subst h; decide
  · have key : ∀ L : List Nat, (∀ d ∈ L, d < 10) →
        natOfDigits ((L.map Nat.digitChar).reverse) = Nat.ofDigits 10 L := by
      intro L
      induction L with
      | nil => intro _; rfl
      | cons d t ih =>
        intro hL
        rw [List.map_cons, List.reverse_cons, natOfDigits_append, ih
          (fun x hx => hL x (List.mem_cons_of_mem d hx)), Nat.ofDigits_cons]
        have hv : natOfDigits [Nat.digitChar d] = d := by
          show 10 * 0 + ((Nat.digitChar d).toNat - 48) = d
          rw [digitChar_val (hL d (List.mem_cons_self d t))]
          omega
        simp [hv]
        ring
    rw [key (Nat.digits 10 n) (fun d hd => Nat.digits_lt_base (by norm_num) hd),
      Nat.ofDigits_digits]

theorem length_renderNat_le {n k : Nat} (hn : n < 10 ^ k) (hk : 1 ≤ k) :
    (renderNat n).length ≤ k := by
  rw [renderNat]
  split
  · simpa using hk
  · next h =>
    rw [List.length_reverse, List.length_map]
    rw [Nat.digits_len 10 n (by norm_num) h]
    have hlog : Nat.log 10 n < k := Nat.log_lt_of_lt_pow h hn
    omega

theorem dropWhile_append_dot {p : Char → Bool} (hp : p '.' = false)
    (X Y : List Char) :
    (X ++ '.' :: Y).dropWhile p = X.dropWhile p ++ '.' :: Y := by
  induction X with
  | nil => simp [List.dropWhile_cons, hp]
  | cons x xs ih =>
    by_cases hx : p x = true
    · simp [List.dropWhile_cons, hx, ih]
    · have hx2 : p x = false := by
        cases hv : p x with
        | true => exact absurd hv hx
        | false => rfl
      simp [List.dropWhile_cons, hx2]

theorem dropWhile_eq_self_of_none {p : Char → Bool} {s : List Char}
    (h : ∀ c ∈ s, p c = false) : s.dropWhile p = s := by
  cases s with
  | nil => rfl
  | cons c t => simp [List.dropWhile_cons, h c (List.mem_cons_self c t)]

theorem trimRight_append_dot (A B : List Char) :
    trimRight (A ++ '.' :: B) '0' = A ++ '.' :: trimRight B '0' := by
  rw [trimRight, trimRight, List.reverse_append, List.reverse_cons,
    List.append_assoc]
  rw [List.singleton_append, dropWhile_append_dot (by decide)]
  simp

theorem trimRight_eq_self_of_not_mem {s : List Char} {c : Char} (h : c ∉ s) :
    trimRight s c = s := by
  rw [trimRight, dropWhile_eq_self_of_none, List.reverse_reverse]
  intro a ha
  rw [List.mem_reverse] at ha
  simp only [decide_eq_false_iff_not]
  intro hEq
  exact h (hEq ▸ ha)

theorem mem_trimRight {s : List Char} {c ch : Char} (h : c ∈ trimRight s ch) :
    c ∈ s := by
  rw [trimRight] at h
  rw [List.mem_reverse] at h
  have hsub := List.dropWhile_sublist (l := s.reverse) (p := fun a => a = ch)
  have := hsub.mem h
  rwa [List.mem_reverse] at this

theorem trimRight_append_single_dot {A : List Char} (h : '.' ∉ A) :
    trimRight (A ++ ['.']) '.' = A := by
  rw [trimRight, List.reverse_append,
    show (['.'] : List Char).reverse = ['.'] from rfl, List.singleton_append,
    List.dropWhile_cons_of_pos (by decide), dropWhile_eq_self_of_none,
    List.reverse_reverse]
  intro a ha
  rw [List.mem_reverse] at ha
  simp only [decide_eq_false_iff_not]
  intro hEq
  exact h (hEq ▸ ha)

theorem trimRight_dot_of_en {A C : List Char} (hC : C ≠ []) (hCd : '.' ∉ C) :
    trimRight (A ++ '.' :: C) '.' = A ++ '.' :: C := by
  rw [trimRight, List.reverse_append, List.reverse_cons, List.append_assoc]
  cases hrev : C.reverse with
  | nil => exact absurd (by simpa using hrev) hC
  | cons c0 cs =>
    have hc0 : c0 ∈ C := by
      rw [← List.mem_reverse, hrev]; exact List.mem_cons_self c0 cs
    have hne : (fun a => decide (a = '.')) c0 = false := by
      simp only [decide_eq_false_iff_not]
      intro hEq; exact hCd (hEq ▸ hc0)
    rw [List.cons_append, List.dropWhile_cons_of_neg (by simpa using hne)]
    rw [← List.cons_append, ← hrev, ← List.append_assoc, ← List.reverse_cons,
      ← List.reverse_append]
    simp

theorem exists_trimRight_replicate (s : List Char) (c : Char) :
    ∃ z, s = trimRight s c ++ List.replicate z c := by
  refine ⟨(s.reverse.takeWhile (fun a => a = c)).length, ?_⟩
  rw [trimRight]
  conv_lhs => rw [← s.reverse_reverse,
    ← List.takeWhile_append_dropWhile (p := fun a => a = c) (l := s.reverse),
    List.reverse_append]
  congr 1
  have hall : ∀ b ∈ s.reverse.takeWhile (fun a => a = c), b = c := by
    intro b hb
    simpa using List.mem_takeWhile_imp hb
  have h1 : s.reverse.takeWhile (fun a => a = c)
      = List.replicate (s.reverse.takeWhile (fun a => a = c)).length c :=
    List.eq_replicate_of_mem hall
  rw [h1, List.reverse_replicate, List.length_replicate]

theorem natOfDigits_append_replicate_zero (s : List Char) (z : Nat) :
    natOfDigits (s ++ List.replicate z '0') = natOfDigits s * 10 ^ z := by
  rw [natOfDigits_append, natOfDigits_replicate_zero, List.length_replicate]
  omega

theorem takeWhile_append_dot {p : Char → Bool} (hp : p '.' = false)
    (X Y : List Char) (hX : ∀ c ∈ X, p c = true) :
    (X ++ '.' :: Y).takeWhile p = X := by
  induction X with
  | nil => simp [List.takeWhile_cons, hp]
  | cons x xs ih =>
    rw [List.cons_append, List.takeWhile_cons,
      hX x (List.mem_cons_self x xs)]
    rw [ih (fun c hc => hX c (List.mem_cons_of_mem x hc))]
    simp

theorem dropWhile_eq_nil_of_all {p : Char → Bool} {s : List Char}
    (h : ∀ c ∈ s, p c = true) : s.dropWhile p = [] := by
  induction s with
  | nil => rfl
  | cons c t ih =>
    rw [List.dropWhile_cons, h c (List.mem_cons_self c t)]
    exact ih (fun a ha => h a (List.mem_cons_of_mem c ha))

theorem parseDecimal_digits {s : List Char} (h : '.' ∉ s) :
    parseDecimal s = (natOfDigits s : ℚ) := by
  have hall : ∀ c ∈ s, (fun c => decide (c ≠ '.')) c = true := by
    intro c hc
    simp only [ne_eq, decide_eq_true_eq]
    intro hEq
    exact h (hEq ▸ hc)
  have htake : s.takeWhile (fun c => c ≠ '.') = s := by
    conv_rhs => rw [← List.takeWhile_append_dropWhile
      (p := fun c => c ≠ '.') (l := s)]
    rw [dropWhile_eq_nil_of_all hall, List.append_nil]
  have hdrop : s.dropWhile (fun c => c ≠ '.') = [] :=
    dropWhile_eq_nil_of_all hall
  simp only [parseDecimal, htake, hdrop]
  simp [natOfDigits]

theorem parseDecimal_split {A B : List Char} (h : '.' ∉ A) :
    parseDecimal (A ++ '.' :: B)
      = (natOfDigits A : ℚ) + (natOfDigits B : ℚ) / 10 ^ B.length := by
  have hall : ∀ c ∈ A, (fun c => decide (c ≠ '.')) c = true := by
    intro c hc
    simp only [ne_eq, decide_eq_true_eq]
    intro hEq
    exact h (hEq ▸ hc)
  have htake : (A ++ '.' :: B).takeWhile (fun c => c ≠ '.') = A :=
    takeWhile_append_dot (by decide) A B hall
  have hdrop : (A ++ '.' :: B).dropWhile (fun c => c ≠ '.') = '.' :: B := by
    rw [dropWhile_append_dot (by decide), dropWhile_eq_nil_of_all hall,
      List.nil_append]
  simp only [parseDecimal, htake, hdrop, List.drop_succ_cons, List.drop_zero]

theorem rdHalfEven_intCast (m : ℤ) : rdHalfEven ((m : ℚ)) = m := by
  rw [rdHalfEven, Int.fract_intCast]
  norm_num [Int.floor_intCast]

theorem renderFixed_eq {x : ℚ} {dp : Nat} {m : ℤ} (hdp : dp ≠ 0)
    (hm : ((m : ℚ)) = x * 10 ^ dp) :
    renderFixed x dp
      = renderNat (m.toNat / 10 ^ dp) ++ '.'
          :: padZeros dp (renderNat (m.toNat % 10 ^ dp)) := by
  simp only [renderFixed, ← hm, rdHalfEven_intCast, if_neg hdp]

/-- Abstract core of the trim-and-parse argument: a string `A ++ '.' :: C`
with digit blocks `A` and `C` (the fractional block already stripped of `z`
trailing zeros) parses, after the trailing-dot trim, to the value it was
rendered from, keeps at least one character, and its length again scales
the value to an integer. -/
theorem trim_parse_core (A C : List Char) (z dp I F : Nat) (x : ℚ)
    (hAdot : '.' ∉ A) (hAne : A ≠ []) (hCd : '.' ∉ C)
    (hzf : natOfDigits C * 10 ^ z = F)
    (hlenz : C.length + z = dp)
    (hxval : x = (I : ℚ) + (F : ℚ) / 10 ^ dp)
    (hIA : natOfDigits A = I) :
    parseDecimal (trimRight (A ++ '.' :: C) '.') = x
    ∧ 1 ≤ (trimRight (A ++ '.' :: C) '.').length
    ∧ ∃ k : ℤ, ((k : ℚ)) = x * 10 ^ (trimRight (A ++ '.' :: C) '.').length := by
  by_cases hCnil : C = []
  · subst hCnil
    rw [trimRight_append_single_dot hAdot]
    have hF0 : F = 0 := by
      rw [← hzf]
      simp [natOfDigits]
    have hxI : x = (I : ℚ) := by
      rw [hxval, hF0]
      simp
    refine ⟨?_, ?_, ?_⟩
    · rw [parseDecimal_digits hAdot, hIA, hxI]
    · exact List.length_pos.mpr hAne
    · exact ⟨(I : ℤ) * 10 ^ A.length, by rw [hxI]; push_cast; ring⟩
  · rw [trimRight_dot_of_en hCnil hCd]
    have hq10C : ((10 : ℚ)) ^ C.length ≠ 0 := by positivity
    have hq10z : ((10 : ℚ)) ^ z ≠ 0 := by positivity
    have hFsplit : (F : ℚ) / 10 ^ dp = (natOfDigits C : ℚ) / 10 ^ C.length := by
      rw [← hzf, ← hlenz]
      push_cast
      rw [pow_add]
      field_simp
      ring
    refine ⟨?_, ?_, ?_⟩
    · rw [parseDecimal_split hAdot, hIA, hxval, hFsplit]
    · rw [List.length_append, List.length_cons]
      omega
    · refine ⟨(I : ℤ) * 10 ^ (A ++ '.' :: C).length
          + (natOfDigits C : ℤ) * 10 ^ (A.length + 1), ?_⟩
      rw [hxval, hFsplit, List.length_append, List.length_cons]
      push_cast
      field_simp
      ring

/-- Core exactness of the render-and-trim pipeline: a non-negative rational
that is an integer multiple of `10 ^ (-dp)` survives rendering at `dp ≥ 1`
decimals followed by the two trims — the resulting string denotes the value
exactly, is non-empty, and its full length again scales the value to an
integer.  This is the invariant behind the `formatPrice` claims. -/
theorem renderTrim_exact (x : ℚ) (dp : Nat) (m : ℤ) (hx : 0 ≤ x) (hdp : 1 ≤ dp)
    (hm : ((m : ℚ)) = x * 10 ^ dp) :
    parseDecimal (trimRight (trimRight (renderFixed x dp) '0') '.') = x
    ∧ 1 ≤ (trimRight (trimRight (renderFixed x dp) '0') '.').length
    ∧ ∃ k : ℤ, ((k : ℚ))
        = x * 10 ^ (trimRight (trimRight (renderFixed x dp) '0') '.').length := by
  have hm0 : 0 ≤ m := by
    have h10 : (0 : ℚ) ≤ x * 10 ^ dp := by positivity
    have : (0 : ℚ) ≤ ((m : ℚ)) := hm ▸ h10
    exact_mod_cast this
  have hMm : ((m.toNat : ℤ)) = m := Int.toNat_of_nonneg hm0
  have hMx : ((m.toNat : ℚ)) = x * 10 ^ dp := by
    rw [← hm]
    exact_mod_cast congrArg (fun z : ℤ => (z : ℚ)) hMm
  have hpow : 0 < 10 ^ dp := Nat.pos_pow_of_pos dp (by norm_num)
  have hIF : 10 ^ dp * (m.toNat / 10 ^ dp) + m.toNat % 10 ^ dp = m.toNat :=
    Nat.div_add_mod m.toNat (10 ^ dp)
  have hFlt : m.toNat % 10 ^ dp < 10 ^ dp := Nat.mod_lt _ hpow
  have hrf : renderFixed x dp
      = renderNat (m.toNat / 10 ^ dp) ++ '.'
          :: padZeros dp (renderNat (m.toNat % 10 ^ dp)) :=
    renderFixed_eq (by omega) hm
  have hq10 : ((10 : ℚ)) ^ dp ≠ 0 := by positivity
  have hfbLen : (padZeros dp (renderNat (m.toNat % 10 ^ dp))).length = dp :=
    length_padZeros (length_renderNat_le hFlt hdp)
  have hfbVal : natOfDigits (padZeros dp (renderNat (m.toNat % 10 ^ dp)))
      = m.toNat % 10 ^ dp := by
    rw [natOfDigits_padZeros, natOfDigits_renderNat]
  have hAdot : '.' ∉ renderNat (m.toNat / 10 ^ dp) :=
    renderNat_no_dot _
  have hfbdot : '.' ∉ padZeros dp (renderNat (m.toNat % 10 ^ dp)) := by
    rw [padZeros]
    intro hmem
    rcases List.mem_append.mp hmem with h1 | h2
    · exact absurd (List.eq_of_mem_replicate h1) (by decide)
    · exact renderNat_no_dot _ h2
  rw [hrf, trimRight_append_dot]
  have hCd : '.' ∉ trimRight (padZeros dp (renderNat (m.toNat % 10 ^ dp))) '0' :=
    fun hmem => hfbdot (mem_trimRight hmem)
  obtain ⟨z, hz⟩ :=
    exists_trimRight_replicate (padZeros dp (renderNat (m.toNat % 10 ^ dp))) '0'
  have hzf : natOfDigits
        (trimRight (padZeros dp (renderNat (m.toNat % 10 ^ dp))) '0') * 10 ^ z
      = m.toNat % 10 ^ dp := by
    rw [← natOfDigits_append_replicate_zero, ← hz, hfbVal]
  have hlenz : (trimRight (padZeros dp (renderNat (m.toNat % 10 ^ dp))) '0').length
        + z = dp := by
    have hl := congrArg List.length hz
    rw [hfbLen, List.length_append, List.length_replicate] at hl
    omega
  have hxval : x = ((m.toNat / 10 ^ dp : ℕ) : ℚ)
      + ((m.toNat % 10 ^ dp : ℕ) : ℚ) / 10 ^ dp := by
    apply mul_right_cancel₀ hq10
    rw [← hMx]
    conv_lhs => rw [← hIF]
    push_cast
    field_simp
    ring
  exact trim_parse_core (renderNat (m.toNat / 10 ^ dp))
    (trimRight (padZeros dp (renderNat (m.toNat % 10 ^ dp))) '0') z dp
    (m.toNat / 10 ^ dp) (m.toNat % 10 ^ dp) x hAdot (renderNat_ne_nil _) hCd
    hzf hlenz hxval (natOfDigits_renderNat _)

/-! ## Claims -/

/-- C5: a 200 response whose envelope `code` is not `0` makes `makeRequest`
return the OKX-API error carrying the original code and message after
exactly one HTTP round trip, with no retry and no back-off sleep. -/
theorem c5_envelope_error_not_retried {α : Type} (code msg : List Char)
    (data : α) (errParse : Option (List Char × List Char)) (raw : List Char)
    (rest : List (AttemptResult α)) (h : code ≠ "0".toList) :
    makeRequest (.response 200 errParse (some (code, msg, data)) raw :: rest)
      = (.error (.okxAPIError code msg), [], 1) := by
  have h2 : ¬ code = ['0'] := by simpa using h
  simp [makeRequest, makeRequestLoop, h2]

/-- C5 witness at the envelope `code 51000, msg param error` of the spec's
scenario. -/
theorem c5_envelope_error_not_retried_witness :
    ("51000".toList ≠ "0".toList)
    ∧ makeRequest [AttemptResult.response 200 none
          (some ("51000".toList, "param error".toList, (() : Unit))) []]
        = (.error (.okxAPIError "51000".toList "param error".toList), [], 1) :=
  ⟨by decide, c5_envelope_error_not_retried _ _ _ _ _ _ (by decide)⟩

/-- C3 counterexample: three straight `timeout` transport failures make the
retry loop return, on its third iteration, the plain transport-error
wrapper (`HTTP请求失败`) of the last error — not the retry-exhaustion
message (`请求失败（已重试3次）`), whose post-loop return is dead code. -/
theorem c3_counterexample_exhaustion_message :
    makeRequest [AttemptResult.transportErr (α := Unit) "timeout".toList,
        .transportErr "timeout".toList, .transportErr "timeout".toList]
      = (.error (.httpReqFailed "timeout".toList), [1, 2], 3)
    ∧ (Except.error (GoError.httpReqFailed "timeout".toList) : Except GoError Unit)
        ≠ .error (.retriesExhausted 3 (.httpReqFailed "timeout".toList)) := by
  exact ⟨by decide, by decide⟩

/-- C3 (amended): on retryable transport errors the loop retries after
attempt 1 and attempt 2, sleeping 1 s then 2 s, and after the third failed
attempt surfaces the transport-error wrapper (`HTTP请求失败`) around the
last transport error — the retry-exhaustion message after the loop is
unreachable. -/
theorem c3_transport_retry {α : Type} (m1 m2 m3 : List Char)
    (h1 : retryableErr m1 = true) (h2 : retryableErr m2 = true) :
    makeRequest [AttemptResult.transportErr (α := α) m1, .transportErr m2,
        .transportErr m3]
      = (.error (.httpReqFailed m3), [1, 2], 3) := by
  simp [makeRequest, makeRequestLoop, h1, h2, maxRetries]

/-- C3 witness: all three attempts time out. -/
theorem c3_transport_retry_witness :
    retryableErr "timeout".toList = true
    ∧ makeRequest [AttemptResult.transportErr (α := Unit) "timeout".toList,
          .transportErr "timeout".toList, .transportErr "timeout".toList]
        = (.error (.httpReqFailed "timeout".toList), [1, 2], 3) :=
  ⟨by decide, c3_transport_retry _ _ _ (by decide) (by decide)⟩

/-- C6: for every caller-format symbol with no dash ending in `USDT` or
`USD`, `reverseSymbol` inverts `convertSymbol`; in particular
`convertSymbol` maps `BTCUSDT` to `BTC-USDT-SWAP` and `reverseSymbol` maps
it back.  Both functions are total `List Char → List Char` maps with no
error case. -/
theorem c6_symbol_roundtrip (s : List Char) (hd : ¬ ('-' ∈ s))
    (hsuf : "USDT".toList <:+ s ∨ "USD".toList <:+ s) :
    reverseSymbol (convertSymbol s) = s
    ∧ convertSymbol "BTCUSDT".toList = "BTC-USDT-SWAP".toList
    ∧ reverseSymbol "BTC-USDT-SWAP".toList = "BTCUSDT".toList :=
  ⟨reverseSymbol_convertSymbol s hd hsuf, by decide, by decide⟩

/-- C6 witness at the symbol `ETHUSD`. -/
theorem c6_symbol_roundtrip_witness :
    ¬ ('-' ∈ "ETHUSD".toList)
    ∧ reverseSymbol (convertSymbol "ETHUSD".toList) = "ETHUSD".toList :=
  ⟨by decide,
    (c6_symbol_roundtrip "ETHUSD".toList (by decide) (Or.inr (by decide))).1⟩

/-- C7: the normalized output of the `GetPositions` loop is exactly the raw
records whose `pos` is non-zero, normalized in order — so a record whose
`pos` parses to 0 never appears — and a record with `pos < 0` normalizes to
side `short` with `positionAmt = |pos|`. -/
theorem c7_position_normalization (raws : List RawPos) (r : RawPos)
    (hr : r.pos < 0) :
    goSliceToList (buildPositions raws)
      = (raws.filter (fun p => p.pos ≠ 0)).map normalizeOne
    ∧ (normalizeOne r).side = "short".toList
    ∧ (normalizeOne r).positionAmt = |r.pos| := by
  refine ⟨buildPositions_toList raws, ?_, ?_⟩
  · simp [normalizeOne, hr]
  · simp [normalizeOne, hr, abs_of_neg hr]

/-- C7 witness: one zero-`pos` record is dropped and one short position is
normalized. -/
theorem c7_position_normalization_witness :
    ((⟨"ETH-USDT-SWAP".toList, -4, 3000, 2990, -40, 10, 120, 12000, 3300,
        "cross".toList⟩ : RawPos).pos < 0)
    ∧ goSliceToList (buildPositions
          [⟨"BTC-USDT-SWAP".toList, 0, 0, 0, 0, 0, 0, 0, 0, "cross".toList⟩,
           ⟨"ETH-USDT-SWAP".toList, -4, 3000, 2990, -40, 10, 120, 12000, 3300,
             "cross".toList⟩])
        = ([⟨"BTC-USDT-SWAP".toList, 0, 0, 0, 0, 0, 0, 0, 0, "cross".toList⟩,
            ⟨"ETH-USDT-SWAP".toList, -4, 3000, 2990, -40, 10, 120, 12000, 3300,
              "cross".toList⟩].filter (fun p => p.pos ≠ 0)).map normalizeOne
    ∧ (normalizeOne ⟨"ETH-USDT-SWAP".toList, -4, 3000, 2990, -40, 10, 120,
          12000, 3300, "cross".toList⟩).side = "short".toList
    ∧ (normalizeOne ⟨"ETH-USDT-SWAP".toList, -4, 3000, 2990, -40, 10, 120,
          12000, 3300, "cross".toList⟩).positionAmt
        = |(⟨"ETH-USDT-SWAP".toList, -4, 3000, 2990, -40, 10, 120, 12000, 3300,
            "cross".toList⟩ : RawPos).pos| :=
  ⟨by norm_num, c7_position_normalization _ _ (by norm_num)⟩

/-- C8: `generateSignature` returns the base64 encoding of the HMAC-SHA256
tag, keyed by the secret, of the concatenation
`timestamp + method + requestPath + body`, and is deterministic: a second
invocation on an identical input tuple returns a byte-identical string. -/
theorem c8_signature_shape_and_determinism
    (secretKey timestamp method requestPath body
      secretKey2 timestamp2 method2 requestPath2 body2 : List Char)
    (hs : secretKey2 = secretKey) (ht : timestamp2 = timestamp)
    (hm : method2 = method) (hp : requestPath2 = requestPath) (hb : body2 = body) :
    generateSignature secretKey timestamp method requestPath body
      = base64Encode (hmacSha256 (bytesOfChars secretKey)
          (bytesOfChars (timestamp ++ method ++ requestPath ++ body)))
    ∧ generateSignature secretKey2 timestamp2 method2 requestPath2 body2
      = generateSignature secretKey timestamp method requestPath body := by
  subst hs ht hm hp hb
  exact ⟨rfl, rfl⟩

/-- C8 witness at a concrete signing tuple. -/
theorem c8_signature_shape_and_determinism_witness :
    generateSignature "k".toList "2024-01-01T00:00:00.000Z".toList "GET".toList
        "/api/v5/account/balance?ccy=USDT".toList []
      = base64Encode (hmacSha256 (bytesOfChars "k".toList)
          (bytesOfChars ("2024-01-01T00:00:00.000Z".toList ++ "GET".toList
            ++ "/api/v5/account/balance?ccy=USDT".toList ++ []))) :=
  (c8_signature_shape_and_determinism _ _ _ _ _ _ _ _ _ _
    rfl rfl rfl rfl rfl).1

/-- C1 counterexample: with the fractional spec `minSz = lotSz = 1/2` the
final integer rendering (`FormatFloat(math.Floor(q), 'f', 0, 64)`) floors
the already-lot-aligned quantity `1/2` down to 0, so the formatted quantity
is below `minSize`; and for `q = 1/4 < minSize` the result is 0, not
`minSize`. -/
theorem c1_counterexample_fractional_spec :
    formatQuantity "SOLUSDT".toList (some ⟨1 / 2, 1 / 2⟩) (1 / 2) = .ok 0
    ∧ ¬ ((1 : ℚ) / 2 ≤ 0)
    ∧ formatQuantity "SOLUSDT".toList (some ⟨1 / 2, 1 / 2⟩) (1 / 4) = .ok 0
    ∧ (0 : ℚ) ≠ 1 / 2 := by
  refine ⟨by with_unfolding_all decide, by with_unfolding_all decide,
    by with_unfolding_all decide, by with_unfolding_all decide⟩

/-- C1 (amended): for an instrument whose parsed `minSz` and `lotSz` are
positive integers with `lotSz` dividing `minSz` — the shape the final
integer (contract-count) rendering presupposes — and any quantity `q > 0`
with the spec fetch succeeding, the denoted formatted quantity `q'`
satisfies `q' ≥ minSz`, `lotSz ∣ q'`, and `q' = minSz` whenever
`q < minSz`. -/
theorem c1_format_quantity (sym : List Char) (m l : ℕ) (q : ℚ)
    (hm : 0 < m) (hl : 0 < l) (hdvd : l ∣ m) (hq : 0 < q) :
    ∃ q' : ℤ, formatQuantity sym (some ⟨(m : ℚ), (l : ℚ)⟩) q = .ok (q' : ℚ)
      ∧ (m : ℤ) ≤ q' ∧ (l : ℤ) ∣ q' ∧ (q < (m : ℚ) → q' = (m : ℤ)) := by
  obtain ⟨c, hc⟩ := hdvd
  have hl0 : (0 : ℚ) < (l : ℚ) := by exact_mod_cast hl
  have hm0 : (0 : ℚ) < (m : ℚ) := by exact_mod_cast hm
  have hmle : ¬ ((m : ℚ) ≤ 0) := not_le.mpr hm0
  have hq0 : ¬ (q ≤ 0) := not_le.mpr hq
  have hmc : (m : ℚ) = (l : ℚ) * (c : ℚ) := by exact_mod_cast hc
  have hfloorm : ((⌊(m : ℚ) / (l : ℚ)⌋ : ℚ)) * (l : ℚ) = (m : ℚ) := by
    have hdivc : (m : ℚ) / (l : ℚ) = (c : ℚ) := by
      rw [hmc, mul_comm, mul_div_assoc, div_self (ne_of_gt hl0), mul_one]
    rw [hdivc, Int.floor_natCast, hmc]
    push_cast
    ring
  simp only [formatQuantity, if_neg hq0, if_neg hmle, if_pos hl0]
  by_cases hql : q < (m : ℚ)
  · refine ⟨(m : ℤ), ?_, le_refl _, ?_, fun _ => rfl⟩
    · rw [if_pos hql, if_neg (by rw [hfloorm]; exact lt_irrefl _), hfloorm]
      norm_num
    · exact Int.natCast_dvd_natCast.mpr ⟨c, hc⟩
  · rw [if_neg hql]
    by_cases hsnap : ((⌊q / (l : ℚ)⌋ : ℚ)) * (l : ℚ) < (m : ℚ)
    · refine ⟨(m : ℤ), ?_, le_refl _, Int.natCast_dvd_natCast.mpr ⟨c, hc⟩,
        fun hcon => absurd hcon hql⟩
      rw [if_pos hsnap]
      norm_num
    · refine ⟨⌊q / (l : ℚ)⌋ * (l : ℤ), ?_, ?_, dvd_mul_left _ _,
        fun hcon => absurd hcon hql⟩
      · rw [if_neg hsnap]
        have hcast : ((⌊q / (l : ℚ)⌋ : ℚ)) * (l : ℚ)
            = ((⌊q / (l : ℚ)⌋ * (l : ℤ) : ℤ) : ℚ) := by push_cast; ring
        rw [hcast, Int.floor_intCast]
      · have hle : (m : ℚ) ≤ ((⌊q / (l : ℚ)⌋ : ℚ)) * (l : ℚ) := not_lt.mp hsnap
        exact_mod_cast hle

/-- C1 witness: the spec-scenario quantity `0.873` against the spec
`minSz = lotSz = 1` formats to 1. -/
theorem c1_format_quantity_witness :
    0 < 1 ∧ (1 : ℕ) ∣ 1 ∧ (0 : ℚ) < 873 / 1000
    ∧ ∃ q' : ℤ, formatQuantity "BTCUSDT".toList
          (some ⟨((1 : ℕ) : ℚ), ((1 : ℕ) : ℚ)⟩) (873 / 1000) = .ok (q' : ℚ)
        ∧ ((1 : ℕ) : ℤ) ≤ q' ∧ ((1 : ℕ) : ℤ) ∣ q'
        ∧ (873 / 1000 < ((1 : ℕ) : ℚ) → q' = ((1 : ℕ) : ℤ)) :=
  ⟨by decide, by decide, by norm_num,
    c1_format_quantity "BTCUSDT".toList 1 1 (873 / 1000) (by decide) (by decide)
      (by decide) (by norm_num)⟩

/-- C4 counterexample: when the batch cancel fails and the fallback listing
of pending orders also fails, `CancelAllOrders` surfaces the listing error
instead of returning success. -/
theorem c4_counterexample_listing_failure :
    (cancelAllOrders (.error (.httpReqFailed "timeout".toList))
        (.error (.httpReqFailed "boom".toList)) [] (.ok ()) (.ok ())).1
      = .error (.getOrderListFailed (.httpReqFailed "boom".toList))
    ∧ (cancelAllOrders (.error (.httpReqFailed "timeout".toList))
        (.error (.httpReqFailed "boom".toList)) [] (.ok ()) (.ok ())).1 ≠ .ok () := by
  exact ⟨by decide, by decide⟩

/-- C4 (amended): `CancelAllOrders` returns success whenever the batch
cancel succeeds or the fallback listing of pending orders parses — every
individual cancel failure and both algo-cancellation failures are only
logged; the sole error paths are a failed batch cancel followed by a failed
or unparsable pending-order listing. -/
theorem c4_cancel_all_orders (batch : Except GoError Unit)
    (pending : Except GoError (Option (List (List Char))))
    (eachCancel : List (Except GoError Unit))
    (slCancel tpCancel : Except GoError Unit)
    (h : batch = .ok () ∨ ∃ ids, pending = .ok (some ids)) :
    (cancelAllOrders batch pending eachCancel slCancel tpCancel).1 = .ok () := by
  rcases h with hb | ⟨ids, hp⟩
  · subst hb; rfl
  · cases batch with
    | ok u => rfl
    | error e => subst hp; rfl

/-- C4 witness: failed batch cancel, parsable listing, and failing
individual plus algo cancellations still aggregate to success. -/
theorem c4_cancel_all_orders_witness :
    ((Except.error (GoError.httpReqFailed "x".toList) : Except GoError Unit) = .ok ()
      ∨ ∃ ids, (Except.ok (some ["12345".toList]) :
          Except GoError (Option (List (List Char)))) = .ok (some ids))
    ∧ (cancelAllOrders (.error (.httpReqFailed "x".toList))
         (.ok (some ["12345".toList])) [.error .parseRespFailed]
         (.error .parseRespFailed) (.error .parseRespFailed)).1 = .ok () :=
  ⟨Or.inr ⟨_, rfl⟩,
    c4_cancel_all_orders _ _ _ _ _ (Or.inr ⟨_, rfl⟩)⟩

/-- C2 (divergence at the failing input): the exchange answers each call
with a 200 envelope whose positions array is empty.  The first
`GetPositions` returns the empty (nil) list — not an error — and stores
the nil slice, which the `cachedPositions != nil` guard cannot tell from an
absent cache, so the second call 5 seconds later fetches again: two HTTP
round trips in total where the claim requires exactly one.  By contrast a
non-empty result is served from the cache (0 round trips on the second
call). -/
theorem c2_empty_positions_not_cached :
    (getPositions ⟨none, 0, none, 0⟩ 100
        [.response 200 none (some ("0".toList, [], some [])) []]).1 = .ok none
    ∧ (getPositions ⟨none, 0, none, 0⟩ 100
        [.response 200 none (some ("0".toList, [], some [])) []]).2.2 = 1
    ∧ (getPositions ⟨none, 0, none, 0⟩ 100
        [.response 200 none (some ("0".toList, [], some [])) []]).2.1.cachedPositions
        = none
    ∧ (getPositions (getPositions ⟨none, 0, none, 0⟩ 100
          [.response 200 none (some ("0".toList, [], some [])) []]).2.1 105
        [.response 200 none (some ("0".toList, [], some [])) []]).2.2 = 1
    ∧ (getPositions (getPositions ⟨none, 0, none, 0⟩ 100
          [.response 200 none (some ("0".toList, [],
            some [⟨"BTC-USDT-SWAP".toList, 1, 0, 0, 0, 0, 0, 0, 0, []⟩])) []]).2.1 105
        [.response 200 none (some ("0".toList, [],
          some [⟨"BTC-USDT-SWAP".toList, 1, 0, 0, 0, 0, 0, 0, 0, []⟩])) []]).2.2 = 0 := by
  exact ⟨by with_unfolding_all decide, by with_unfolding_all decide,
    by with_unfolding_all decide, by with_unfolding_all decide,
    by with_unfolding_all decide⟩

/-- C10: on a cache miss whose fetch fails — transport error, non-200
status, envelope code not 0, JSON decode failure, or (for the balance)
empty details — `GetBalance` and `GetPositions` return an error and leave
the cached payload and its fetch time exactly as they were, so a value
cached earlier keeps being served by calls within its TTL. -/
theorem c10_failing_fetch_preserves_cache (st : TraderState) (now : ℚ)
    (attB : List (AttemptResult BalPayload)) (attP : List (AttemptResult PosPayload))
    (hmb : st.cachedBalance = none ∨ ¬ (now - st.balanceCacheTime < cacheDuration))
    (hfb : balFetchFails attB = true)
    (hmp : st.cachedPositions = none ∨ ¬ (now - st.positionsCacheTime < cacheDuration))
    (hfp : posFetchFails attP = true) :
    exceptIsError (getBalance st now attB).1 = true
    ∧ (getBalance st now attB).2.1 = st
    ∧ exceptIsError (getPositions st now attP).1 = true
    ∧ (getPositions st now attP).2.1 = st := by
  have hbEq : getBalance st now attB = getBalanceFetch st now attB := by
    rcases hcb : st.cachedBalance with _ | b
    · simp [getBalance, hcb]
    · rcases hmb with h | h
      · rw [hcb] at h; cases h
      · simp [getBalance, hcb, if_neg h]
  have hpEq : getPositions st now attP = getPositionsFetch st now attP := by
    rcases hcp : st.cachedPositions with _ | ps
    · simp [getPositions, hcp]
    · rcases hmp with h | h
      · rw [hcp] at h; cases h
      · simp [getPositions, hcp, if_neg h]
  have hbF : exceptIsError (getBalanceFetch st now attB).1 = true
      ∧ (getBalanceFetch st now attB).2.1 = st := by
    rcases hr : (makeRequest attB).1 with e | p
    · exact ⟨by simp [getBalanceFetch, hr, exceptIsError],
        by simp [getBalanceFetch, hr]⟩
    · rcases p with _ | p2
      · exact ⟨by simp [getBalanceFetch, hr, exceptIsError],
          by simp [getBalanceFetch, hr]⟩
      · rcases p2 with _ | d
        · exact ⟨by simp [getBalanceFetch, hr, exceptIsError],
            by simp [getBalanceFetch, hr]⟩
        · exfalso
          simp only [balFetchFails, hr] at hfb
          cases hfb
  have hpF : exceptIsError (getPositionsFetch st now attP).1 = true
      ∧ (getPositionsFetch st now attP).2.1 = st := by
    rcases hr : (makeRequest attP).1 with e | p
    · exact ⟨by simp [getPositionsFetch, hr, exceptIsError],
        by simp [getPositionsFetch, hr]⟩
    · rcases p with _ | raws
      · exact ⟨by simp [getPositionsFetch, hr, exceptIsError],
          by simp [getPositionsFetch, hr]⟩
      · exfalso
        simp only [posFetchFails, hr] at hfp
        cases hfp
  exact ⟨hbEq ▸ hbF.1, hbEq ▸ hbF.2, hpEq ▸ hpF.1, hpEq ▸ hpF.2⟩

/-- C10 witness: cold caches, one non-retryable transport failure each. -/
theorem c10_failing_fetch_preserves_cache_witness :
    ((⟨none, 0, none, 0⟩ : TraderState).cachedBalance = none
      ∨ ¬ ((0 : ℚ) - (⟨none, 0, none, 0⟩ : TraderState).balanceCacheTime
            < cacheDuration))
    ∧ balFetchFails [.transportErr "boom".toList] = true
    ∧ posFetchFails [.transportErr "boom".toList] = true
    ∧ exceptIsError (getBalance ⟨none, 0, none, 0⟩ 0
        [.transportErr "boom".toList]).1 = true
    ∧ (getBalance ⟨none, 0, none, 0⟩ 0
        [.transportErr "boom".toList]).2.1 = ⟨none, 0, none, 0⟩
    ∧ exceptIsError (getPositions ⟨none, 0, none, 0⟩ 0
        [.transportErr "boom".toList]).1 = true
    ∧ (getPositions ⟨none, 0, none, 0⟩ 0
        [.transportErr "boom".toList]).2.1 = ⟨none, 0, none, 0⟩ := by
  have h := c10_failing_fetch_preserves_cache ⟨none, 0, none, 0⟩ 0
    [.transportErr "boom".toList] [.transportErr "boom".toList]
    (Or.inl rfl) (by decide) (Or.inl rfl) (by decide)
  exact ⟨Or.inl rfl, by decide, by decide, h.1, h.2.1, h.2.2.1, h.2.2.2⟩

/-- C9 counterexample: (1) with `tickSize = 0` the computed decimal-place
count is 0, the price 10 renders as `10`, and the trailing-zero trim turns
it into `1` — the denoted price is 1, not `⌊10 · 10^0⌋ / 10^0 = 10`;
(2) with the positive tick `10^(-11)` the computed count is 1 (the `%.10f`
rendering of the tick collapses to `0`), so the price `0.99` is rendered at
one decimal place, rounds up to `1`, and the denoted price exceeds the
input, violating `p' ≤ p`. -/
theorem c9_counterexample_price_denotation :
    formatPrice (computePrecision 1 0 1) 10 = "1".toList
    ∧ parseDecimal "1".toList = 1
    ∧ ((⌊(10 : ℚ) * 10 ^ (computePrecision 1 0 1).pricePrecision⌋ : ℚ)
        / 10 ^ (computePrecision 1 0 1).pricePrecision) = 10
    ∧ (1 : ℚ) ≠ 10
    ∧ (0 : ℚ) < 1 / 10 ^ 11
    ∧ formatPrice (computePrecision 1 (1 / 10 ^ 11) 1) (99 / 100) = "1".toList
    ∧ ¬ ((1 : ℚ) ≤ 99 / 100) := by
  refine ⟨?_, ?_, ?_, ?_, ?_, ?_, ?_⟩ <;> with_unfolding_all decide

/-- C9 (amended): for an instrument whose `tickSize` is positive and has at
most ten decimal places that its computed rendering preserves (there is an
integer `n` with `n = tickSize · 10^10`), and any price `p ≥ 0`, the price
`p'` denoted by `formatPrice`'s string satisfies `p' ≤ p` and is an integer
multiple of `tickSize`.  When `tickSize` is not positive, the returned
string is the integer `⌊p⌋` rendered in decimal with its trailing zero
digits stripped (so the denoted value is `⌊p · 10^dp⌋ / 10^dp` with
`dp = 0` only when `⌊p⌋` ends in no zero digit). -/
theorem c9_format_price (lotSz tickSz minSz p : ℚ) (hp : 0 ≤ p)
    (hdec10 : ∃ n : ℤ, ((n : ℚ)) = tickSz * 10 ^ 10) :
    (0 < tickSz →
      parseDecimal (formatPrice (computePrecision lotSz tickSz minSz) p) ≤ p
      ∧ ∃ k : ℤ, parseDecimal (formatPrice (computePrecision lotSz tickSz minSz) p)
          = (k : ℚ) * tickSz)
    ∧ (tickSz ≤ 0 →
      formatPrice (computePrecision lotSz tickSz minSz) p
        = trimRight (renderNat (⌊p⌋).toNat) '0') := by
  constructor
  · intro htick
    obtain ⟨n, hn⟩ := hdec10
    have htick0 : tickSz ≠ 0 := ne_of_gt htick
    have hth := renderTrim_exact tickSz 10 n (le_of_lt htick) (by norm_num) hn
    obtain ⟨k0, hk0⟩ := hth.2.2
    have hdp1 : 1 ≤ precisionDigits tickSz := hth.2.1
    have hk0' : ((k0 : ℚ)) = tickSz * 10 ^ precisionDigits tickSz := hk0
    have hfp : formatPrice (computePrecision lotSz tickSz minSz) p
        = trimRight (trimRight (renderFixed ((⌊p / tickSz⌋ : ℚ) * tickSz)
            (precisionDigits tickSz)) '0') '.' := by
      simp only [formatPrice, computePrecision, if_pos htick]
    have hfl0 : (0 : ℚ) ≤ ((⌊p / tickSz⌋ : ℚ)) := by
      have hquot : (0 : ℚ) ≤ p / tickSz := div_nonneg hp (le_of_lt htick)
      exact_mod_cast Int.floor_nonneg.mpr hquot
    have hf0 : (0 : ℚ) ≤ ((⌊p / tickSz⌋ : ℚ)) * tickSz :=
      mul_nonneg hfl0 (le_of_lt htick)
    have hm' : (((⌊p / tickSz⌋ * k0 : ℤ)) : ℚ)
        = ((⌊p / tickSz⌋ : ℚ)) * tickSz * 10 ^ precisionDigits tickSz := by
      push_cast
      rw [hk0']
      ring
    have hmain := renderTrim_exact (((⌊p / tickSz⌋ : ℚ)) * tickSz)
      (precisionDigits tickSz) (⌊p / tickSz⌋ * k0) hf0 hdp1 hm'
    rw [hfp]
    refine ⟨?_, ⟨⌊p / tickSz⌋, ?_⟩⟩
    · rw [hmain.1]
      have hfle : ((⌊p / tickSz⌋ : ℚ)) ≤ p / tickSz := Int.floor_le _
      calc ((⌊p / tickSz⌋ : ℚ)) * tickSz
          ≤ (p / tickSz) * tickSz :=
            mul_le_mul_of_nonneg_right hfle (le_of_lt htick)
        _ = p := div_mul_cancel₀ p htick0
    · rw [hmain.1]
  · intro htick
    have hnpos : ¬ (0 < tickSz) := not_lt.mpr htick
    have hfmt : formatPrice (computePrecision lotSz tickSz minSz) p
        = trimRight (trimRight (renderFixed ((⌊p⌋ : ℚ)) 0) '0') '.' := by
      simp only [formatPrice, computePrecision, if_neg hnpos, pow_zero, mul_one,
        div_one]
    have hrend : renderFixed ((⌊p⌋ : ℚ)) 0 = renderNat (⌊p⌋).toNat := by
      simp only [renderFixed, pow_zero, mul_one, rdHalfEven_intCast]
      simp
    have hnodot : '.' ∉ trimRight (renderNat (⌊p⌋).toNat) '0' :=
      fun hmem => renderNat_no_dot _ (mem_trimRight hmem)
    rw [hfmt, hrend, trimRight_eq_self_of_not_mem hnodot]

/-- C9 witness: tick `0.1` (so `dp = 3`) and price `123.456` format to
`123.4`, which is at most the price and is 1234 ticks. -/
theorem c9_format_price_witness :
    (0 : ℚ) ≤ 123456 / 1000
    ∧ (∃ n : ℤ, ((n : ℚ)) = (1 / 10 : ℚ) * 10 ^ 10)
    ∧ (0 : ℚ) < 1 / 10
    ∧ parseDecimal (formatPrice (computePrecision 1 (1 / 10) 1)
        (123456 / 1000)) ≤ 123456 / 1000
    ∧ ∃ k : ℤ, parseDecimal (formatPrice (computePrecision 1 (1 / 10) 1)
        (123456 / 1000)) = (k : ℚ) * (1 / 10) :=
  ⟨by norm_num, ⟨(10 : ℤ) ^ 9, by norm_num⟩, by norm_num,
    ((c9_format_price 1 (1 / 10) 1 (123456 / 1000) (by norm_num)
      ⟨(10 : ℤ) ^ 9, by norm_num⟩).1 (by norm_num)).1,
    ((c9_format_price 1 (1 / 10) 1 (123456 / 1000) (by norm_num)
      ⟨(10 : ℤ) ^ 9, by norm_num⟩).1 (by norm_num)).2⟩

end OKX
